import Mathlib

/-!
Shallow embedding of the two source headers of this repository:

* `gtsam/geometry/FundamentalMatrix.h` — the classes `FundamentalMatrix`
  (left rotation `U`, scalar `s`, right rotation `V`) and
  `SimpleFundamentalMatrix` (essential matrix `E`, focal lengths `fa`, `fb`,
  principal points `ca`, `cb`), with their `matrix()`, `localCoordinates`,
  `retract`, `dimension` members.
* `gtsam_unstable/dynamics/VelocityConstraint3.h` — the factor
  `VelocityConstraint3` (keys, time step `dt`, constrained noise strength)
  with its constructor and `evaluateError`.

Machine doubles are modelled as rationals (all arithmetic used by the code is
field arithmetic).  The external leaf utilities `Rot3` and `EssentialMatrix`
(not part of this repository's two source files) are modelled as abstract
charts, exactly the black-box capability set the specification assigns them.
Eigen's dynamic-vector accessors `head<k>()`, `tail<k>()` and `operator(i)`
carry out-of-range assertions; an access outside the vector is modelled as
`none`, and within range they read the slices Eigen reads (first `k`, last
`k`, coefficient `i`) with no further size check.
-/

/-- 3×3 rational matrices, the model of gtsam `Matrix3`. -/
abbrev Matrix3 := Matrix (Fin 3) (Fin 3) ℚ

/-- 1×1 rational matrices, the Jacobian blocks of `VelocityConstraint3`. -/
abbrev Matrix1 := Matrix (Fin 1) (Fin 1) ℚ

/-- Modelled from the spec: the Rotation Chart leaf utility (gtsam `Rot3`,
whose implementation is not among this repository's source files).  The spec
treats it as a black box supplying `retract`, `localCoordinates` and a dense
3×3 matrix accessor; `transp` models `Rot3::transpose()` (the inverse
rotation), which `FundamentalMatrix::matrix()` calls. -/
structure RotChart (R : Type) where
  retract : R → (Fin 3 → ℚ) → R
  localCoordinates : R → R → (Fin 3 → ℚ)
  mat : R → Matrix3
  transp : R → R

/-- Modelled from the spec: the Essential-Geometry Parameter leaf utility
(gtsam `EssentialMatrix`, not among this repository's source files), a
black box with a 5-parameter chart and a dense 3×3 matrix accessor. -/
structure EssChart (X : Type) where
  retract : X → (Fin 5 → ℚ) → X
  localCoordinates : X → X → (Fin 5 → ℚ)
  mat : X → Matrix3

/-- `gtsam::FundamentalMatrix`: left rotation `U_`, scalar `s_`, right
rotation `V_`, over an abstract rotation type `R`. -/
structure FundamentalMatrix (R : Type) where
  U : R
  s : ℚ
  V : R

namespace FundamentalMatrix

/-- `enum { dimension = 7 }` of the source. -/
def dimension : ℕ := 7

/-- `static size_t Dim() { return dimension; }`. -/
def Dim : ℕ := dimension

/-- `size_t dim() const { return dimension; }`: ignores the instance. -/
def dim {R : Type} (_ : FundamentalMatrix R) : ℕ := dimension

/-- Eigen `Vector3(a,b,c).asDiagonal()` as used by `matrix()`. -/
def asDiagonal (v : Fin 3 → ℚ) : Matrix3 :=
  Matrix.of fun i j => if i = j then v i else 0

/-- `matrix()`: `U_.matrix() * Vector3(1, s_, 1).asDiagonal() *
V_.transpose().matrix()`, verbatim from the source (the right factor is the
matrix of the transposed rotation). -/
def matrix {R : Type} (c : RotChart R) (F : FundamentalMatrix R) : Matrix3 :=
  c.mat F.U * asDiagonal ![1, F.s, 1] * c.mat (c.transp F.V)

/-- `localCoordinates(F)`: `result.head<3>() = U_.localCoordinates(F.U_);
result(3) = F.s_ - s_; result.tail<3>() = V_.localCoordinates(F.V_)`.  The
two chart results are `Vector3` (length 3), so the assembled vector is their
concatenation around the scalar difference. -/
def localCoordinates {R : Type} (c : RotChart R) (P Q : FundamentalMatrix R) :
    List ℚ :=
  List.ofFn (c.localCoordinates P.U Q.U) ++
    (Q.s - P.s) :: List.ofFn (c.localCoordinates P.V Q.V)

/-- `retract(delta)` on a dynamic `Vector`: `U_.retract(delta.head<3>())`,
`s_ + delta(3)`, `V_.retract(delta.tail<3>())`.  Eigen asserts
`3 ≤ size` for `head<3>`, `4 ≤ size` for `delta(3)` and `3 ≤ size` for
`tail<3>` (which reads the LAST three coefficients); together the accesses
are in range exactly when `4 ≤ size`, and no other size check exists. -/
def retract {R : Type} (c : RotChart R) (P : FundamentalMatrix R)
    (delta : List ℚ) : Option (FundamentalMatrix R) :=
  if 4 ≤ delta.length then
    some { U := c.retract P.U fun i => delta.getD i 0
           s := P.s + delta.getD 3 0
           V := c.retract P.V fun i => delta.getD (delta.length - 3 + i) 0 }
  else none

end FundamentalMatrix

/-- `gtsam::SimpleFundamentalMatrix`: essential matrix `E_`, focal lengths
`fa_`, `fb_`, principal points `ca_`, `cb_`, over an abstract essential
matrix type `X`. -/
structure SimpleFundamentalMatrix (X : Type) where
  E : X
  fa : ℚ
  fb : ℚ
  ca : ℚ × ℚ
  cb : ℚ × ℚ

namespace SimpleFundamentalMatrix

/-- `enum { dimension = 7 }` of the source. -/
def dimension : ℕ := 7

/-- `static size_t Dim() { return dimension; }`. -/
def Dim : ℕ := dimension

/-- `size_t dim() const { return dimension; }`: ignores the instance. -/
def dim {X : Type} (_ : SimpleFundamentalMatrix X) : ℕ := dimension

/-- The left calibration matrix `Ka << fa_, 0, ca_.x(), 0, fa_, ca_.y(),
0, 0, 1` built inside `matrix()`. -/
def Ka {X : Type} (S : SimpleFundamentalMatrix X) : Matrix3 :=
  !![S.fa, 0, S.ca.1; 0, S.fa, S.ca.2; 0, 0, 1]

/-- The right calibration matrix `Kb << fb_, 0, cb_.x(), 0, fb_, cb_.y(),
0, 0, 1` built inside `matrix()`. -/
def Kb {X : Type} (S : SimpleFundamentalMatrix X) : Matrix3 :=
  !![S.fb, 0, S.cb.1; 0, S.fb, S.cb.2; 0, 0, 1]

/-- Eigen's dense 3×3 `inverse()` (cofactor formula: adjugate over
determinant), used by `matrix()` for `Kb.inverse()`. -/
def eigenInverse (A : Matrix3) : Matrix3 := A.det⁻¹ • A.adjugate

/-- `matrix()`: `Ka * E_.matrix() * Kb.inverse()`. -/
def matrix {X : Type} (c : EssChart X) (S : SimpleFundamentalMatrix X) :
    Matrix3 :=
  S.Ka * c.mat S.E * eigenInverse S.Kb

/-- `localCoordinates(F)`: `result.head<5>() = E_.localCoordinates(F.E_);
result(5) = F.fa_ - fa_; result(6) = F.fb_ - fb_`.  Principal points do not
appear. -/
def localCoordinates {X : Type} (c : EssChart X)
    (P Q : SimpleFundamentalMatrix X) : List ℚ :=
  List.ofFn (c.localCoordinates P.E Q.E) ++ [Q.fa - P.fa, Q.fb - P.fb]

/-- `retract(delta)` on a dynamic `Vector`: `E_.retract(delta.head<5>())`,
`fa_ + delta(5)`, `fb_ + delta(6)`, principal points copied through.  Eigen
asserts `5 ≤ size`, `6 ≤ size`, `7 ≤ size` for the three accesses; together
they are in range exactly when `7 ≤ size`, and no other size check exists. -/
def retract {X : Type} (c : EssChart X) (P : SimpleFundamentalMatrix X)
    (delta : List ℚ) : Option (SimpleFundamentalMatrix X) :=
  if 7 ≤ delta.length then
    some { E := c.retract P.E fun i => delta.getD i 0
           fa := P.fa + delta.getD 5 0
           fb := P.fb + delta.getD 6 0
           ca := P.ca
           cb := P.cb }
  else none

end SimpleFundamentalMatrix

/-- `gtsam::VelocityConstraint3`: the three keys, the time step `dt_`, and
the strength the constructor hands to the noise model. -/
structure VelocityConstraint3 where
  key1 : ℕ
  key2 : ℕ
  velKey : ℕ
  dt : ℚ
  noiseMu : ℚ

namespace VelocityConstraint3

/-- The source constructor `VelocityConstraint3(key1, key2, velKey, dt, mu =
1000.0)` initialises the base with `noiseModel::Constrained::All(1,
std::abs(mu))` and stores `dt`.  Modelled from the spec: the Weighting Model
(`noiseModel::Constrained`, not among this repository's source files) is an
external component that receives the forwarded strength opaquely, so it is
modelled as the stored field `noiseMu`; what this repository's code
contributes is `std::abs` and the absence of any rejection path. -/
def init (key1 key2 velKey : ℕ) (dt : ℚ) (mu : ℚ := 1000) :
    VelocityConstraint3 :=
  { key1 := key1, key2 := key2, velKey := velKey, dt := dt, noiseMu := |mu| }

/-- The outputs of `evaluateError`: the returned residual `Vector(1)` and
the three optional Jacobians (`some` exactly when the caller passed a
non-null output pointer). -/
structure EvalResult where
  residual : Fin 1 → ℚ
  H1 : Option Matrix1
  H2 : Option Matrix1
  H3 : Option Matrix1

/-- `evaluateError(x1, x2, v, H1, H2, H3)`: writes `Identity(1,1)`,
`-Identity(1,1)`, `Identity(1,1)*dt_` into the requested Jacobians and
returns `(Vector(1) << x1 + v*dt_ - x2).finished()`. -/
def evaluateError (f : VelocityConstraint3) (x1 x2 v : ℚ)
    (w1 w2 w3 : Bool) : EvalResult where
  residual := fun _ => x1 + v * f.dt - x2
  H1 := if w1 then some (1 : Matrix1) else none
  H2 := if w2 then some (-(1 : Matrix1)) else none
  H3 := if w3 then some (f.dt • (1 : Matrix1)) else none

end VelocityConstraint3

/-- The additive chart on tangent triples: a concrete Rotation Chart whose
retract is vector addition and whose local coordinates are vector
subtraction (so that the chart laws hold exactly); its matrix accessor is
constant identity and its transpose is the identity map. -/
def addRotChart : RotChart (Fin 3 → ℚ) where
  retract := fun r d => r + d
  localCoordinates := fun r q => q - r
  mat := fun _ => 1
  transp := id

/-- The additive chart on tangent 5-tuples: a concrete Essential-Geometry
chart with exact chart laws. -/
def addEssChart : EssChart (Fin 5 → ℚ) where
  retract := fun e d => e + d
  localCoordinates := fun e q => q - e
  mat := fun _ => 1

/-- A concrete `FundamentalMatrix` over the additive chart (the analogue of
the default-constructed `FundamentalMatrix()`). -/
def F0 : FundamentalMatrix (Fin 3 → ℚ) :=
  { U := fun _ => 0, s := 1, V := fun _ => 0 }

/-- A concrete `SimpleFundamentalMatrix` over the additive chart (the
analogue of the default-constructed `SimpleFundamentalMatrix()`). -/
def S0 : SimpleFundamentalMatrix (Fin 5 → ℚ) :=
  { E := fun _ => 0, fa := 1, fb := 1, ca := (0, 0), cb := (0, 0) }

/-- A concrete length-7 tangent vector. -/
def d7 : List ℚ := [1, 2, 3, 4, 5, 6, 7]

/-- The result of retracting `F0` by `d7`. -/
def G0 : FundamentalMatrix (Fin 3 → ℚ) :=
  (F0.retract addRotChart d7).getD F0

/-- The result of retracting `S0` by `d7`. -/
def T0 : SimpleFundamentalMatrix (Fin 5 → ℚ) :=
  (S0.retract addEssChart d7).getD S0

/-!  ## Theorems for the claims  -/

/-- A list of length seven is a seven-element literal. -/
theorem length_eq_seven_exists {α : Type} (l : List α) (h : l.length = 7) :
    ∃ a b c d e f g, l = [a, b, c, d, e, f, g] := by
  obtain ⟨a, l, rfl⟩ := List.exists_of_length_succ l h
  have h1 : l.length = 6 := by simpa using h
  obtain ⟨b, l, rfl⟩ := List.exists_of_length_succ l h1
  have h2 : l.length = 5 := by simpa using h1
  obtain ⟨c, l, rfl⟩ := List.exists_of_length_succ l h2
  have h3 : l.length = 4 := by simpa using h2
  obtain ⟨d, l, rfl⟩ := List.exists_of_length_succ l h3
  have h4 : l.length = 3 := by simpa using h3
  obtain ⟨e, l, rfl⟩ := List.exists_of_length_succ l h4
  have h5 : l.length = 2 := by simpa using h4
  obtain ⟨f, l, rfl⟩ := List.exists_of_length_succ l h5
  have h6 : l.length = 1 := by simpa using h5
  obtain ⟨g, l, rfl⟩ := List.exists_of_length_succ l h6
  have h7 : l.length = 0 := by simpa using h6
  rw [List.length_eq_zero] at h7
  subst h7
  exact ⟨a, b, c, d, e, f, g, rfl⟩

/-- Expansion of `List.ofFn` over `Fin 3`. -/
theorem ofFn_fin3 (f : Fin 3 → ℚ) : List.ofFn f = [f 0, f 1, f 2] := by
  simp [List.ofFn_succ]

/-- Expansion of `List.ofFn` over `Fin 5`. -/
theorem ofFn_fin5 (f : Fin 5 → ℚ) : List.ofFn f = [f 0, f 1, f 2, f 3, f 4] := by
  simp [List.ofFn_succ]
  exact ⟨rfl, rfl⟩

/-- C4: both Parameter variants report intrinsic dimension 7, through the
static `Dim()` and the member `dim()`, which ignores the instance (the value
is the compile-time constant `dimension = 7`). -/
theorem dimension_eq_seven :
    FundamentalMatrix.Dim = 7 ∧
    (∀ (R : Type) (F : FundamentalMatrix R), F.dim = 7) ∧
    SimpleFundamentalMatrix.Dim = 7 ∧
    (∀ (X : Type) (S : SimpleFundamentalMatrix X), S.dim = 7) :=
  ⟨rfl, fun _ _ => rfl, rfl, fun _ _ => rfl⟩

/-- C9: the residual returned by `evaluateError` does not depend on which of
the three optional Jacobians are requested. -/
theorem evaluateError_residual_independent_of_jacobians
    (f : VelocityConstraint3) (x1 x2 v : ℚ) :
    ∀ w1 w2 w3 w1' w2' w3' : Bool,
      (f.evaluateError x1 x2 v w1 w2 w3).residual =
        (f.evaluateError x1 x2 v w1' w2' w3').residual :=
  fun _ _ _ _ _ _ => rfl

/-- C10: for every choice of keys, time step and real strength `mu`
(including zero and negative values), the constructor accepts `mu` and
builds its noise model from `|mu|`, so the factor built with `mu` is the
very same factor as the one built with `|mu|`. -/
theorem init_mu_abs_equiv (key1 key2 velKey : ℕ) (dt mu : ℚ) :
    VelocityConstraint3.init key1 key2 velKey dt mu =
      VelocityConstraint3.init key1 key2 velKey dt |mu| := by
  simp [VelocityConstraint3.init, abs_abs]

/-- C8 counterexample: construction with the non-positive strength `mu = -5`
is not rejected — it yields a well-formed factor, identical to the factor
built with `mu = 5`, with stored strength `5`. -/
theorem init_accepts_nonpositive_mu :
    VelocityConstraint3.init 0 1 2 (1/10) (-5) =
        VelocityConstraint3.init 0 1 2 (1/10) 5 ∧
      (VelocityConstraint3.init 0 1 2 (1/10) (-5)).noiseMu = 5 ∧
      (VelocityConstraint3.init 0 1 2 (1/10) 0).noiseMu = 0 := by
  refine ⟨?_, ?_, ?_⟩ <;> simp [VelocityConstraint3.init]

/-- C8 amended: the constructor has no rejection path.  For every strength
`mu` (positive, zero or negative) it returns the factor with the given keys
and time step and with `|mu|` forwarded to the noise model. -/
theorem init_total_stores_abs_mu (key1 key2 velKey : ℕ) (dt mu : ℚ) :
    (VelocityConstraint3.init key1 key2 velKey dt mu).noiseMu = |mu| ∧
      (VelocityConstraint3.init key1 key2 velKey dt mu).dt = dt ∧
      (VelocityConstraint3.init key1 key2 velKey dt mu).key1 = key1 ∧
      (VelocityConstraint3.init key1 key2 velKey dt mu).key2 = key2 ∧
      (VelocityConstraint3.init key1 key2 velKey dt mu).velKey = velKey :=
  ⟨rfl, rfl, rfl, rfl, rfl⟩

/-- C3: `evaluateError` returns the length-1 residual `x1 + v·dt − x2` at
every operating point; the requested Jacobians are the constants `[1]`,
`[-1]`, `[dt]` whatever the operating point; and for `dt = 1/10` at
`x1 = 2`, `x2 = 11/5`, `v = 2` the residual is `[0]`. -/
theorem velocityConstraint3_evaluateError_spec (f : VelocityConstraint3)
    (x1 x2 v : ℚ) (w1 w2 w3 : Bool) :
    (f.evaluateError x1 x2 v w1 w2 w3).residual = (fun _ => x1 + v * f.dt - x2) ∧
    (f.evaluateError x1 x2 v true true true).H1 = some !![1] ∧
    (f.evaluateError x1 x2 v true true true).H2 = some !![-1] ∧
    (f.evaluateError x1 x2 v true true true).H3 = some !![f.dt] ∧
    ((VelocityConstraint3.init 0 1 2 (1/10)).evaluateError 2 (11/5) 2 w1 w2 w3).residual
      = (fun _ => 0) := by
  have h1 : (1 : Matrix1) = !![1] := by
    ext i j
    fin_cases i
    fin_cases j
    simp
  refine ⟨rfl, ?_, ?_, ?_, ?_⟩
  · simp [VelocityConstraint3.evaluateError, h1]
  · simp [VelocityConstraint3.evaluateError, h1]
  · simp [VelocityConstraint3.evaluateError, h1]
  · funext i
    simp [VelocityConstraint3.evaluateError, VelocityConstraint3.init]
    norm_num

/-- C6: for the reduced-form Parameter, `retract` copies both principal
points through unchanged for every tangent vector, and `localCoordinates`
does not depend on the principal points of either argument. -/
theorem retract_preserves_principal_points {X : Type} (c : EssChart X)
    (S : SimpleFundamentalMatrix X) (delta : List ℚ) :
    (S.retract c delta).map SimpleFundamentalMatrix.ca
        = (S.retract c delta).map (fun _ => S.ca) ∧
    (S.retract c delta).map SimpleFundamentalMatrix.cb
        = (S.retract c delta).map (fun _ => S.cb) ∧
    (∀ (E E' : X) (fa fb fa' fb' : ℚ) (pa pb pa' pb' qa qb qa' qb' : ℚ × ℚ),
      SimpleFundamentalMatrix.localCoordinates c
          ⟨E, fa, fb, pa, pb⟩ ⟨E', fa', fb', qa, qb⟩ =
        SimpleFundamentalMatrix.localCoordinates c
          ⟨E, fa, fb, pa', pb'⟩ ⟨E', fa', fb', qa', qb'⟩) := by
  refine ⟨?_, ?_, fun _ _ _ _ _ _ _ _ _ _ _ _ _ _ => rfl⟩ <;>
    · unfold SimpleFundamentalMatrix.retract
      by_cases h : 7 ≤ delta.length <;> simp [h]

/-- C7: for both variants, retracting by the zero tangent vector returns
the parameter itself exactly, whenever the underlying chart fixes its
points under a zero update (as the rotation and essential-matrix charts
do). -/
theorem retract_zero_eq_self {R X : Type} (c : RotChart R) (ec : EssChart X)
    (hc : ∀ r, c.retract r (fun _ => 0) = r)
    (he : ∀ e, ec.retract e (fun _ => 0) = e)
    (F : FundamentalMatrix R) (S : SimpleFundamentalMatrix X) :
    F.retract c (List.replicate 7 0) = some F ∧
      S.retract ec (List.replicate 7 0) = some S := by
  have hrep : List.replicate 7 (0 : ℚ) = [0, 0, 0, 0, 0, 0, 0] := rfl
  have h3 : (fun i : Fin 3 => ([0, 0, 0, 0, 0, 0, 0] : List ℚ).getD i 0)
      = fun _ => 0 := by
    funext i; fin_cases i <;> rfl
  have h3t : (fun i : Fin 3 =>
      ([0, 0, 0, 0, 0, 0, 0] : List ℚ).getD
        (([0, 0, 0, 0, 0, 0, 0] : List ℚ).length - 3 + i) 0) = fun _ => 0 := by
    funext i; fin_cases i <;> rfl
  have h5 : (fun i : Fin 5 => ([0, 0, 0, 0, 0, 0, 0] : List ℚ).getD i 0)
      = fun _ => 0 := by
    funext i; fin_cases i <;> rfl
  obtain ⟨u, s, v⟩ := F
  obtain ⟨e, fa, fb, pa, pb⟩ := S
  rw [hrep]
  constructor
  · unfold FundamentalMatrix.retract
    rw [if_pos (by norm_num)]
    simp only [h3, h3t, hc]
    norm_num
  · unfold SimpleFundamentalMatrix.retract
    rw [if_pos (by norm_num)]
    simp only [h5, he]
    norm_num

/-- Application of C7 at the additive charts and the concrete parameters
`F0`, `S0`. -/
theorem retract_zero_eq_self_witness :
    (∀ r : Fin 3 → ℚ, addRotChart.retract r (fun _ => 0) = r) ∧
    (∀ e : Fin 5 → ℚ, addEssChart.retract e (fun _ => 0) = e) ∧
    (F0.retract addRotChart (List.replicate 7 0) = some F0 ∧
      S0.retract addEssChart (List.replicate 7 0) = some S0) := by
  have hc : ∀ r : Fin 3 → ℚ, addRotChart.retract r (fun _ => 0) = r := by
    intro r; funext i; simp [addRotChart]
  have he : ∀ e : Fin 5 → ℚ, addEssChart.retract e (fun _ => 0) = e := by
    intro e; funext i; simp [addEssChart]
  exact ⟨hc, he, retract_zero_eq_self addRotChart addEssChart hc he F0 S0⟩

/-- C2: `matrix()` of the general form equals the product of the left
rotation matrix, `diag(1, s, 1)` and the transposed right rotation matrix
(the source computes the last factor as the matrix of the transposed
rotation); `matrix()` of the reduced form equals `Ka * E * Kb⁻¹`, where the
cofactor inverse the source computes is the matrix inverse of `Kb`
(two-sided once the right focal length is nonzero).  Both are plain
functions of the current state. -/
theorem matrix_decomposition {R X : Type} (c : RotChart R) (ec : EssChart X)
    (F : FundamentalMatrix R) (S : SimpleFundamentalMatrix X)
    (hT : ∀ r, c.mat (c.transp r) = (c.mat r).transpose) (hfb : S.fb ≠ 0) :
    F.matrix c = c.mat F.U * Matrix.diagonal ![1, F.s, 1] * (c.mat F.V).transpose ∧
    S.matrix ec = S.Ka * ec.mat S.E * S.Kb⁻¹ ∧
    S.Kb * SimpleFundamentalMatrix.eigenInverse S.Kb = 1 := by
  have hdet : (S.Kb).det = S.fb * S.fb := by
    rw [SimpleFundamentalMatrix.Kb, Matrix.det_fin_three]
    simp [Matrix.vecHead, Matrix.vecTail]
  have hinv : SimpleFundamentalMatrix.eigenInverse S.Kb = S.Kb⁻¹ := by
    rw [Matrix.inv_def, Ring.inverse_eq_inv]
    rfl
  refine ⟨?_, ?_, ?_⟩
  · unfold FundamentalMatrix.matrix
    rw [hT]
    rfl
  · unfold SimpleFundamentalMatrix.matrix
    rw [hinv]
  · rw [hinv]
    exact Matrix.mul_nonsing_inv _
      (by rw [hdet]; exact isUnit_iff_ne_zero.mpr (mul_ne_zero hfb hfb))

/-- Application of C2 at the additive charts and the concrete parameters
`F0`, `S0` (whose right focal length is 1 ≠ 0). -/
theorem matrix_decomposition_witness :
    (∀ r : Fin 3 → ℚ,
        addRotChart.mat (addRotChart.transp r) = (addRotChart.mat r).transpose) ∧
    S0.fb ≠ 0 ∧
    (F0.matrix addRotChart
        = addRotChart.mat F0.U * Matrix.diagonal ![1, F0.s, 1]
            * (addRotChart.mat F0.V).transpose ∧
      S0.matrix addEssChart = S0.Ka * addEssChart.mat S0.E * S0.Kb⁻¹ ∧
      S0.Kb * SimpleFundamentalMatrix.eigenInverse S0.Kb = 1) := by
  have hT : ∀ r : Fin 3 → ℚ,
      addRotChart.mat (addRotChart.transp r) = (addRotChart.mat r).transpose := by
    intro r; simp [addRotChart]
  have hfb : S0.fb ≠ 0 := by norm_num [S0]
  exact ⟨hT, hfb, matrix_decomposition addRotChart addEssChart F0 S0 hT hfb⟩

/-- C1: for both variants and every length-7 tangent vector `delta`,
`retract` succeeds and `localCoordinates` recovers `delta` exactly, and the
local coordinates of the retracted point with respect to itself are the
zero vector — given that the underlying charts satisfy the same two laws
(as the rotation and essential-matrix charts do for small tangents).  The
proof goes through precisely because the concatenation order of
`localCoordinates` (rotation or essential part first, then the scalars)
matches the slicing order of `retract`. -/
theorem retract_localCoordinates_roundtrip {R X : Type} (c : RotChart R)
    (ec : EssChart X)
    (hc : ∀ r d, c.localCoordinates r (c.retract r d) = d)
    (hc0 : ∀ r, c.localCoordinates r r = fun _ => 0)
    (he : ∀ e d, ec.localCoordinates e (ec.retract e d) = d)
    (he0 : ∀ e, ec.localCoordinates e e = fun _ => 0)
    (F : FundamentalMatrix R) (S : SimpleFundamentalMatrix X)
    (delta : List ℚ) (hlen : delta.length = 7) :
    (∀ G, F.retract c delta = some G →
        F.localCoordinates c G = delta ∧
          G.localCoordinates c G = List.replicate 7 0) ∧
    (∀ T, S.retract ec delta = some T →
        S.localCoordinates ec T = delta ∧
          T.localCoordinates ec T = List.replicate 7 0) := by
  obtain ⟨d0, d1, d2, d3, d4, d5, d6, rfl⟩ := length_eq_seven_exists delta hlen
  constructor
  · intro G hG
    unfold FundamentalMatrix.retract at hG
    rw [if_pos (by norm_num)] at hG
    obtain rfl := Option.some.inj hG
    constructor
    · unfold FundamentalMatrix.localCoordinates
      simp only [hc, ofFn_fin3]
      norm_num [List.getD]
    · unfold FundamentalMatrix.localCoordinates
      simp only [hc0, ofFn_fin3]
      norm_num [List.replicate]
  · intro T hT
    unfold SimpleFundamentalMatrix.retract at hT
    rw [if_pos (by norm_num)] at hT
    obtain rfl := Option.some.inj hT
    constructor
    · unfold SimpleFundamentalMatrix.localCoordinates
      simp only [he, ofFn_fin5]
      norm_num [List.getD]
      exact ⟨rfl, rfl⟩
    · unfold SimpleFundamentalMatrix.localCoordinates
      simp only [he0, ofFn_fin5]
      norm_num [List.replicate]

/-- Application of C1 at the additive charts, the concrete parameters `F0`,
`S0`, the concrete tangent vector `d7` and the retracted points `G0`,
`T0`. -/
theorem retract_localCoordinates_roundtrip_witness :
    (∀ (r : Fin 3 → ℚ) d,
        addRotChart.localCoordinates r (addRotChart.retract r d) = d) ∧
    (∀ r : Fin 3 → ℚ, addRotChart.localCoordinates r r = fun _ => 0) ∧
    (∀ (e : Fin 5 → ℚ) d,
        addEssChart.localCoordinates e (addEssChart.retract e d) = d) ∧
    (∀ e : Fin 5 → ℚ, addEssChart.localCoordinates e e = fun _ => 0) ∧
    d7.length = 7 ∧
    (FundamentalMatrix.localCoordinates addRotChart F0 G0 = d7 ∧
      FundamentalMatrix.localCoordinates addRotChart G0 G0
        = List.replicate 7 0) ∧
    (SimpleFundamentalMatrix.localCoordinates addEssChart S0 T0 = d7 ∧
      SimpleFundamentalMatrix.localCoordinates addEssChart T0 T0
        = List.replicate 7 0) := by
  have hc : ∀ (r : Fin 3 → ℚ) d,
      addRotChart.localCoordinates r (addRotChart.retract r d) = d := by
    intro r d; simp [addRotChart]
  have hc0 : ∀ r : Fin 3 → ℚ, addRotChart.localCoordinates r r = fun _ => 0 := by
    intro r
    show r - r = _
    rw [sub_self]
    rfl
  have he : ∀ (e : Fin 5 → ℚ) d,
      addEssChart.localCoordinates e (addEssChart.retract e d) = d := by
    intro e d; simp [addEssChart]
  have he0 : ∀ e : Fin 5 → ℚ, addEssChart.localCoordinates e e = fun _ => 0 := by
    intro e
    show e - e = _
    rw [sub_self]
    rfl
  have h := retract_localCoordinates_roundtrip addRotChart addEssChart
    hc hc0 he he0 F0 S0 d7 rfl
  exact ⟨hc, hc0, he, he0, rfl, h.1 G0 rfl, h.2 T0 rfl⟩

/-- C5 counterexample: a tangent vector of length 8 (≠ 7) is NOT rejected
by either variant's `retract`: both succeed, and the general form returns
exactly what it returns for the 7-vector obtained by silently dropping the
fifth coefficient (the one that is neither among the first four nor the
last three). -/
theorem retract_accepts_length_eight :
    (([1, 2, 3, 4, 5, 6, 7, 8] : List ℚ).length ≠ 7) ∧
    (F0.retract addRotChart [1, 2, 3, 4, 5, 6, 7, 8]).isSome = true ∧
    F0.retract addRotChart [1, 2, 3, 4, 5, 6, 7, 8]
      = F0.retract addRotChart [1, 2, 3, 4, 6, 7, 8] ∧
    (S0.retract addEssChart [1, 2, 3, 4, 5, 6, 7, 8]).isSome = true := by
  have hU : (fun i : Fin 3 => ([1, 2, 3, 4, 5, 6, 7, 8] : List ℚ).getD i 0)
      = (fun i : Fin 3 => ([1, 2, 3, 4, 6, 7, 8] : List ℚ).getD i 0) := by
    funext i; fin_cases i <;> rfl
  have hV : (fun i : Fin 3 => ([1, 2, 3, 4, 5, 6, 7, 8] : List ℚ).getD
        (([1, 2, 3, 4, 5, 6, 7, 8] : List ℚ).length - 3 + i) 0)
      = (fun i : Fin 3 => ([1, 2, 3, 4, 6, 7, 8] : List ℚ).getD
        (([1, 2, 3, 4, 6, 7, 8] : List ℚ).length - 3 + i) 0) := by
    funext i; fin_cases i <;> rfl
  refine ⟨by norm_num, rfl, ?_, rfl⟩
  unfold FundamentalMatrix.retract
  rw [if_pos (by norm_num), if_pos (by norm_num), hU, hV]
  rfl

/-- C5 amended: `retract` performs no dimension check.  The general form
accepts exactly the vectors of length ≥ 4 and the reduced form exactly
those of length ≥ 7 (anything shorter fails only through an out-of-range
coefficient access); all coefficients outside the slices actually read
(first four and last three for the general form, first seven for the
reduced form) are silently ignored, so oversized vectors are silently
truncated rather than rejected. -/
theorem retract_no_dimension_check {R X : Type} (c : RotChart R)
    (ec : EssChart X) (F : FundamentalMatrix R)
    (S : SimpleFundamentalMatrix X) (delta : List ℚ) :
    ((F.retract c delta).isSome ↔ 4 ≤ delta.length) ∧
    ((S.retract ec delta).isSome ↔ 7 ≤ delta.length) ∧
    (∀ delta' : List ℚ, delta'.length = delta.length →
      (∀ i, i < 4 → delta'.getD i 0 = delta.getD i 0) →
      (∀ i, delta.length - 3 ≤ i → delta'.getD i 0 = delta.getD i 0) →
      F.retract c delta = F.retract c delta') ∧
    (∀ delta' : List ℚ, delta'.length = delta.length →
      (∀ i, i < 7 → delta'.getD i 0 = delta.getD i 0) →
      S.retract ec delta = S.retract ec delta') := by
  refine ⟨?_, ?_, ?_, ?_⟩
  · unfold FundamentalMatrix.retract
    by_cases h : 4 ≤ delta.length <;> simp [h]
  · unfold SimpleFundamentalMatrix.retract
    by_cases h : 7 ≤ delta.length <;> simp [h]
  · intro delta' hl hlow hhigh
    have hU : (fun i : Fin 3 => delta.getD i 0)
        = fun i : Fin 3 => delta'.getD i 0 := by
      funext i
      exact (hlow i (by have := i.isLt; omega)).symm
    have hs : delta.getD 3 0 = delta'.getD 3 0 := (hlow 3 (by norm_num)).symm
    have hV : (fun i : Fin 3 => delta.getD (delta.length - 3 + i) 0)
        = fun i : Fin 3 => delta'.getD (delta'.length - 3 + i) 0 := by
      funext i
      rw [hl]
      exact (hhigh (delta.length - 3 + i) (Nat.le_add_right _ _)).symm
    unfold FundamentalMatrix.retract
    rw [hl, hU, hs, hV, hl]
  · intro delta' hl hlow
    have hE : (fun i : Fin 5 => delta.getD i 0)
        = fun i : Fin 5 => delta'.getD i 0 := by
      funext i
      exact (hlow i (by have := i.isLt; omega)).symm
    have ha : delta.getD 5 0 = delta'.getD 5 0 := (hlow 5 (by norm_num)).symm
    have hb : delta.getD 6 0 = delta'.getD 6 0 := (hlow 6 (by norm_num)).symm
    unfold SimpleFundamentalMatrix.retract
    rw [hl, hE, ha, hb]

/-- Application of the amended C5 at concrete inputs: a length-8 vector is
accepted by both variants, the general form ignores the fifth coefficient
(99 in place of 5 changes nothing), and the reduced form ignores the eighth
(99 in place of 8 changes nothing). -/
theorem retract_no_dimension_check_witness :
    ((F0.retract addRotChart ([1, 2, 3, 4, 5, 6, 7, 8] : List ℚ)).isSome
        ↔ 4 ≤ ([1, 2, 3, 4, 5, 6, 7, 8] : List ℚ).length) ∧
    F0.retract addRotChart ([1, 2, 3, 4, 5, 6, 7, 8] : List ℚ)
      = F0.retract addRotChart [1, 2, 3, 4, 99, 6, 7, 8] ∧
    S0.retract addEssChart ([1, 2, 3, 4, 5, 6, 7, 8] : List ℚ)
      = S0.retract addEssChart [1, 2, 3, 4, 5, 6, 7, 99] := by
  have h := retract_no_dimension_check addRotChart addEssChart F0 S0
    [1, 2, 3, 4, 5, 6, 7, 8]
  refine ⟨h.1, h.2.2.1 [1, 2, 3, 4, 99, 6, 7, 8] rfl ?_ ?_,
    h.2.2.2 [1, 2, 3, 4, 5, 6, 7, 99] rfl ?_⟩
  · intro i hi
    interval_cases i <;> rfl
  · intro i hi
    simp only [List.length_cons, List.length_nil] at hi
    rcases Nat.lt_or_ge i 8 with h8 | h8
    · interval_cases i <;> rfl
    · rw [List.getD_eq_getElem?_getD, List.getD_eq_getElem?_getD,
        List.getElem?_eq_none (by simp; omega),
        List.getElem?_eq_none (by simp; omega)]
  · intro i hi
    interval_cases i <;> rfl
